import Mathlib

/-!
Verification of the ReactomeScraper crawl engine (scraper.py).

Strings are modelled as lists of characters.  The Python standard library
helpers used by the code (urllib.parse.urlparse, urljoin, os.path.join,
str.rstrip, str.strip) are embedded as executable Lean functions following
the CPython implementations, restricted to the features the scraper
exercises.  The md5 content hash used for synthetic image filenames is kept
abstract (a function parameter), since no claim depends on its value.
-/

/-- Character-list strings, the carrier for all URL and path manipulation. -/
abbrev Str := List Char

/-- Conversion from Lean string literals to the character-list model. -/
def str (s : String) : Str := s.data

/-- Lower-case a character-list string (ASCII, as CPython str.lower on URLs). -/
def lowerStr (s : Str) : Str := s.map Char.toLower

/-- Python str.rstrip with a slash argument: drop all trailing slashes. -/
def rstripSlash (s : Str) : Str := (s.reverse.dropWhile (fun c => c = '/')).reverse

/-- Python str.strip with a slash argument: drop leading and trailing slashes. -/
def stripSlash (s : Str) : Str := rstripSlash (s.dropWhile (fun c => c = '/'))

/-- Result of urllib.parse.urlparse: the six URL components. -/
structure ParseResult where
  scheme : Str
  netloc : Str
  path : Str
  params : Str
  query : Str
  fragment : Str
deriving DecidableEq, Repr

/-- Characters CPython accepts inside a URL scheme after the initial letter. -/
def isSchemeChar (c : Char) : Bool := c.isAlpha || c.isDigit || c = '+' || c = '-' || c = '.'

/-- Validity of a candidate scheme component: initial ASCII letter, then scheme chars. -/
def schemeOK (pre : Str) : Bool :=
  match pre with
  | [] => false
  | c :: rest => c.isAlpha && rest.all isSchemeChar

/-- CPython urlsplit scheme detection: split a lower-cased scheme off the URL
when the text before the first colon is a well-formed scheme. -/
def splitScheme (url : Str) : Str × Str :=
  let pre := url.takeWhile (fun x => x ≠ ':')
  if pre.length < url.length && schemeOK pre then
    (lowerStr pre, url.drop (pre.length + 1))
  else ([], url)

/-- Characters that terminate the netloc component in CPython urlsplit. -/
def stopsNetloc (c : Char) : Bool := c = '/' || c = '?' || c = '#'

/-- CPython urlsplit: split scheme, then netloc after a double slash, then
fragment at the first hash, then query at the first question mark. -/
def urlsplit (url : Str) : ParseResult :=
  let sp := splitScheme url
  let scheme := sp.1
  let rest0 := sp.2
  let netloc := if rest0.take 2 = str (r"//") then (rest0.drop 2).takeWhile (fun c => !stopsNetloc c) else []
  let rest1 := if rest0.take 2 = str (r"//") then (rest0.drop 2).dropWhile (fun c => !stopsNetloc c) else rest0
  let fragment := (rest1.dropWhile (fun c => c ≠ '#')).drop 1
  let rest2 := rest1.takeWhile (fun c => c ≠ '#')
  let query := (rest2.dropWhile (fun c => c ≠ '?')).drop 1
  let path := rest2.takeWhile (fun c => c ≠ '?')
  ⟨scheme, netloc, path, [], query, fragment⟩

/-- CPython splitparams helper: split the params off the last path segment at
the first semicolon occurring in that segment. -/
def splitparams (url : Str) : Str × Str :=
  if '/' ∈ url then
    let afterLast := (url.reverse.takeWhile (fun c => c ≠ '/')).reverse
    let pre := url.take (url.length - afterLast.length)
    if ';' ∈ afterLast then
      (pre ++ afterLast.takeWhile (fun c => c ≠ ';'), (afterLast.dropWhile (fun c => c ≠ ';')).drop 1)
    else (url, [])
  else
    (url.takeWhile (fun c => c ≠ ';'), (url.dropWhile (fun c => c ≠ ';')).drop 1)

/-- urllib.parse.urlparse: urlsplit plus params separation on the path. -/
def urlparse (url : Str) : ParseResult :=
  let r := urlsplit url
  if ';' ∈ r.path then
    let pq := splitparams r.path
    { r with path := pq.1, params := pq.2 }
  else r

/-- ReactomeScraper.normalize_url: rebuild scheme://netloc+path and strip
trailing slashes (drops query, params and fragment). -/
def normalize_url (url : Str) : Str :=
  let parsed := urlparse url
  rstripSlash (parsed.scheme ++ str (r"://") ++ parsed.netloc ++ parsed.path)

/-- ReactomeScraper.get_route_path: the parsed path with leading and trailing
slashes stripped, or the sentinel route when that is empty. -/
def get_route_path (url : Str) : Str :=
  let path := stripSlash (urlparse url).path
  if path = [] then str (r"index") else path

/-- Hosts accepted by is_valid_url. -/
def siteHosts : List Str := [str (r"reactome.org"), str (r"www.reactome.org")]

/-- Extensions skipped by is_valid_url. -/
def skip_extensions : List Str :=
  [str (r".pdf"), str (r".png"), str (r".jpg"), str (r".jpeg"), str (r".gif"), str (r".svg"),
   str (r".css"), str (r".js"), str (r".zip"), str (r".tar"), str (r".gz"), str (r".xml"), str (r".json")]

/-- Path beginnings skipped by is_valid_url. -/
def skip_paths : List Str :=
  [str (r"/ContentService"), str (r"/AnalysisService"), str (r"/PathwayBrowser"),
   str (r"/download"), str (r"/icon-lib"), str (r"/gsa")]

/-- True when the lower-cased path ends with one of the excluded extensions. -/
def extBlocked (path : Str) : Bool := skip_extensions.any (fun e => e.isSuffixOf (lowerStr path))

/-- True when the path begins with one of the excluded service endpoints. -/
def pathBlocked (path : Str) : Bool := skip_paths.any (fun e => e.isPrefixOf path)

/-- ReactomeScraper.is_valid_url: the host check fires only on a truthy
(non-empty) netloc, then extension and path-beginning exclusions apply. -/
def is_valid_url (url : Str) : Bool :=
  let parsed := urlparse url
  if parsed.netloc ≠ [] ∧ parsed.netloc ∉ siteHosts then false
  else if extBlocked parsed.path then false
  else if pathBlocked parsed.path then false
  else true

/-- Python substring containment (the in operator on strings). -/
def isSubstring (needle : Str) : Str → Bool
  | [] => needle.isPrefixOf []
  | c :: rest => needle.isPrefixOf (c :: rest) || isSubstring needle rest

/-- Schemes for which CPython urljoin allows relative resolution. -/
def uses_relative : List Str :=
  [str (r""), str (r"ftp"), str (r"http"), str (r"gopher"), str (r"nntp"), str (r"imap"),
   str (r"wais"), str (r"file"), str (r"https"), str (r"shttp"), str (r"mms"),
   str (r"prospero"), str (r"rtsp"), str (r"rtspu"), str (r"sftp"), str (r"svn"),
   str (r"svn+ssh"), str (r"ws"), str (r"wss")]

/-- Schemes for which CPython urljoin uses a network location. -/
def uses_netloc : List Str :=
  [str (r""), str (r"ftp"), str (r"http"), str (r"gopher"), str (r"nntp"), str (r"telnet"),
   str (r"imap"), str (r"wais"), str (r"file"), str (r"mms"), str (r"https"), str (r"shttp"),
   str (r"snews"), str (r"prospero"), str (r"rtsp"), str (r"rtspu"), str (r"rsync"),
   str (r"svn"), str (r"svn+ssh"), str (r"sftp"), str (r"nfs"), str (r"git"),
   str (r"git+ssh"), str (r"ws"), str (r"wss")]

/-- CPython urlunsplit: reassemble scheme, netloc, path, query and fragment. -/
def urlunsplit (scheme netloc url query fragment : Str) : Str :=
  let url := if netloc ≠ [] ∨ (url ≠ [] ∧ url.take 2 = str (r"//")) then
      ('/' :: '/' :: netloc ++ (if url ≠ [] ∧ url.take 1 ≠ str (r"/") then '/' :: url else url))
    else url
  let url := if scheme ≠ [] then scheme ++ ':' :: url else url
  let url := if query ≠ [] then url ++ '?' :: query else url
  if fragment ≠ [] then url ++ '#' :: fragment else url

/-- CPython urlunparse: reattach params to the path, then urlunsplit. -/
def urlunparse (scheme netloc url params query fragment : Str) : Str :=
  urlunsplit scheme netloc (if params ≠ [] then url ++ ';' :: params else url) query fragment

/-- Python str.split on a single character. -/
def splitOnChar (c : Char) : Str → List Str
  | [] => [[]]
  | x :: xs =>
    let r := splitOnChar c xs
    if x = c then [] :: r
    else match r with
         | [] => [[x]]
         | y :: ys => (x :: y) :: ys

/-- CPython urljoin middle-segment cleanup: drop empty inner segments. -/
def filterMiddle (l : List Str) : List Str :=
  match l with
  | [] => []
  | [x] => [x]
  | x :: xs => x :: (xs.dropLast.filter (fun s => s ≠ [])) ++ [xs.getLast?.getD []]

/-- CPython urljoin dot-segment resolution loop. -/
def resolveSegs (acc : List Str) : List Str → List Str
  | [] => acc
  | seg :: rest =>
    if seg = str (r"..") then resolveSegs acc.dropLast rest
    else if seg = str (r".") then resolveSegs acc rest
    else resolveSegs (acc ++ [seg]) rest

/-- urllib.parse.urljoin, following the CPython implementation. -/
def urljoin (base url : Str) : Str :=
  if base = [] then url
  else if url = [] then base
  else
    let b := urlparse base
    let u := urlparse url
    let scheme := if u.scheme = [] then b.scheme else u.scheme
    if scheme ≠ b.scheme ∨ scheme ∉ uses_relative then url
    else if scheme ∈ uses_netloc ∧ u.netloc ≠ [] then
      urlunparse scheme u.netloc u.path u.params u.query u.fragment
    else
      let netloc := if scheme ∈ uses_netloc then b.netloc else u.netloc
      if u.path = [] ∧ u.params = [] then
        urlunparse scheme netloc b.path b.params
          (if u.query = [] then b.query else u.query) u.fragment
      else
        let base_parts0 := splitOnChar '/' b.path
        let base_parts := if base_parts0.getLast?.getD [] ≠ [] then base_parts0.dropLast else base_parts0
        let segments := if u.path.take 1 = str (r"/") then splitOnChar '/' u.path
          else filterMiddle (base_parts ++ splitOnChar '/' u.path)
        let resolved := resolveSegs [] segments
        let resolved := if segments.getLast?.getD [] = str (r"..") ∨ segments.getLast?.getD [] = str (r".") then
            resolved ++ [[]] else resolved
        let joined := List.intercalate (str (r"/")) resolved
        urlunparse scheme netloc (if joined = [] then str (r"/") else joined)
          u.params u.query u.fragment

/-- posix os.path.join of two components. -/
def pathJoin (a b : Str) : Str :=
  if b.take 1 = str (r"/") then b
  else if a = [] then b
  else if a.getLast?.getD ' ' = '/' then a ++ b
  else a ++ '/' :: b

/-- posix os.path.basename: everything after the last slash. -/
def basename (p : Str) : Str := (p.reverse.takeWhile (fun c => c ≠ '/')).reverse

/-- Python re.sub of non-word, non-dash, non-dot characters with underscores,
as applied to image filenames. -/
def cleanFilename (s : Str) : Str :=
  s.map (fun c => if c.isAlphanum || c = '_' || c = '-' || c = '.' then c else '_')

/-- ReactomeScraper.get_image_local_path: local file path and filename for an
image URL under a page route.  The md5 hex digest is the abstract hash. -/
def get_image_local_path (hash : Str → Str) (output_dir img_url page_route : Str) : Str × Str :=
  let parsed := urlparse img_url
  let original := basename parsed.path
  let original := if original = [] then str (r"image_") ++ (hash img_url).take 10 ++ str (r".png") else original
  let original := cleanFilename original
  let image_dir := pathJoin (pathJoin output_dir (str (r"images"))) page_route
  (pathJoin image_dir original, original)

/-- Asset Store state: the dedup set, plus instrumentation recording every
network GET performed and every local file written. -/
structure AssetState where
  downloaded_images : List Str
  downloads : List Str
  written : List Str
deriving DecidableEq, Repr

/-- Empty Asset Store state at the start of a crawl run. -/
def initAsset : AssetState := ⟨[], [], []⟩

/-- ReactomeScraper.download_image.  The network is an oracle mapping an image
URL to its response content type, or none for a request exception.  Returns
the rewritten relative path (none on skip or failure) and the new state. -/
def download_image (net : Str → Option Str) (hash : Str → Str) (output_dir : Str)
    (img_url page_route : Str) (st : AssetState) : Option Str × AssetState :=
  let img_url := if (str (r"//")).isPrefixOf img_url then str (r"https:") ++ img_url else img_url
  if (str (r"data:")).isPrefixOf img_url then (none, st)
  else if img_url ∈ st.downloaded_images then
    let lp := get_image_local_path hash output_dir img_url page_route
    (some (pathJoin (pathJoin (str (r"images")) page_route) lp.2), st)
  else
    match net img_url with
    | none => (none, { st with downloads := st.downloads ++ [img_url] })
    | some content_type =>
      if !(isSubstring (str (r"image/")) content_type || isSubstring (str (r"application/octet-stream")) content_type) then
        (none, { st with downloads := st.downloads ++ [img_url] })
      else
        let lp := get_image_local_path hash output_dir img_url page_route
        (some (pathJoin (pathJoin (str (r"images")) page_route) lp.2),
         { st with downloads := st.downloads ++ [img_url],
                   downloaded_images := st.downloaded_images ++ [img_url],
                   written := st.written ++ [lp.1] })

/-- A parsed HTML element: tag name, multi-valued class attribute, itemprop
attribute, href attribute, and child elements in document order. -/
inductive Element where
  | node (tag : String) (classes : List String) (itemprop : Option String)
      (href : Option Str) (children : List Element)

/-- Tag name of an element. -/
def Element.tag : Element → String
  | .node t _ _ _ _ => t

/-- Class list of an element. -/
def Element.classes : Element → List String
  | .node _ c _ _ _ => c

/-- Itemprop attribute of an element. -/
def Element.itemprop : Element → Option String
  | .node _ _ i _ _ => i

/-- Href attribute of an element. -/
def Element.href : Element → Option Str
  | .node _ _ _ h _ => h

/-- Child elements of an element. -/
def Element.children : Element → List Element
  | .node _ _ _ _ ch => ch

mutual
/-- BeautifulSoup find_all over a document: all elements satisfying the
filter, in document (pre-) order. -/
def findAllE (p : Element → Bool) : Element → List Element
  | .node t c i h ch =>
    (if p (.node t c i h ch) then [Element.node t c i h ch] else []) ++ findAllL p ch
/-- find_all over a list of sibling elements. -/
def findAllL (p : Element → Bool) : List Element → List Element
  | [] => []
  | e :: es => findAllE p e ++ findAllL p es
end

/-- All elements of a document in document order. -/
def elemsOf (d : Element) : List Element := findAllE (fun _ => true) d

/-- The filter for the page container: a div whose class attribute contains
item-page. -/
def isItemPage (e : Element) : Bool := e.tag == r"div" && e.classes.contains (r"item-page")

/-- A div carrying the blogPost itemprop. -/
def isBlogPostUpper (e : Element) : Bool := e.tag == r"div" && e.itemprop == some (r"blogPost")

/-- A div carrying the blogpost itemprop (lower-case variant). -/
def isBlogPostLower (e : Element) : Bool := e.tag == r"div" && e.itemprop == some (r"blogpost")

/-- A class name matching the leading-digits pattern. -/
def isLeadingClass (s : String) : Bool :=
  (str (r"leading-")).isPrefixOf s.data && s.data.drop 8 ≠ [] && (s.data.drop 8).all Char.isDigit

/-- A div with a class matching the leading-digits pattern. -/
def isLeadingDiv (e : Element) : Bool := e.tag == r"div" && e.classes.any isLeadingClass

/-- ReactomeScraper.extract_content region selection: the first item-page div
as the primary region, and the blog-post divs (itemprop in two case variants,
then the class-pattern fallback) as secondary regions.  Image rewriting,
performed inside the selected regions by download_image, is modelled
separately and does not affect which regions are selected. -/
def extract_content (d : Element) : Option Element × List Element :=
  let item_page := (findAllE isItemPage d).head?
  let bp0 := findAllE isBlogPostUpper d
  let bp1 := if bp0.isEmpty then findAllE isBlogPostLower d else bp0
  let bp2 := if bp1.isEmpty then findAllE isLeadingDiv d else bp1
  (item_page, bp2)

/-- The anchors considered by extract_links: a-tags carrying an href. -/
def anchorHrefs (d : Element) : List Str :=
  (findAllE (fun e => e.tag == r"a" && e.href.isSome) d).filterMap Element.href

/-- The href shapes discarded by extract_links before resolution: empty,
javascript, mailto and pure-fragment references. -/
def hrefDiscarded (href : Str) : Bool :=
  href = [] || (str (r"javascript:")).isPrefixOf href || (str (r"mailto:")).isPrefixOf href
    || (str (r"#")).isPrefixOf href

/-- One step of link collection: resolve against the current URL, normalize,
and keep when in scope, avoiding duplicates (set semantics). -/
def linkStep (current_url : Str) (acc : List Str) (href : Str) : List Str :=
  if hrefDiscarded href then acc
  else
    let normalized := normalize_url (urljoin current_url href)
    if is_valid_url normalized then (if normalized ∈ acc then acc else acc ++ [normalized])
    else acc

/-- ReactomeScraper.extract_links: all valid normalized absolute links from
the whole document, deduplicated. -/
def extract_links (d : Element) (current_url : Str) : List Str :=
  (anchorHrefs d).foldl (linkStep current_url) []

/-- Outcome of the single GET issued per page: a response with its content
type and parsed document, or a requests exception (connection, timeout or
non-2xx status via raise_for_status). -/
inductive FetchOutcome where
  | success (contentType : Str) (doc : Element)
  | requestError

/-- One content record persisted by save_content. -/
structure SavedPage where
  url : Str
  route : Str
  item_page : Option Element
  blog_posts : List Element

/-- ReactomeScraper.scrape_page: fetch, gate on HTML content type, extract
and persist content, and harvest links; every failure yields no links and no
persisted content. -/
def scrape_page (fetch : Str → FetchOutcome) (url : Str) : List Str × List SavedPage :=
  match fetch url with
  | .requestError => ([], [])
  | .success content_type doc =>
    if !(isSubstring (str (r"text/html")) content_type) then ([], [])
    else
      let ec := extract_content doc
      let saved := if ec.1.isSome || !ec.2.isEmpty then [⟨url, get_route_path url, ec.1, ec.2⟩] else []
      (extract_links doc url, saved)

/-- Crawl engine state: visited set, queued set, FIFO frontier, page counter,
persisted content, and the log of dequeued-and-fetched URLs in order. -/
structure CrawlState where
  visited : List Str
  queued : List Str
  queue : List Str
  scraped : Nat
  saved : List SavedPage
  log : List Str

/-- The state a crawl run starts from. -/
def initState : CrawlState := ⟨[], [], [], 0, [], []⟩

/-- Python truthiness of the page cap in the loop guard: a cap of none or
zero never triggers. -/
def capReached (mp : Option Nat) (scraped : Nat) : Bool :=
  match mp with
  | none => false
  | some m => if m = 0 then false else decide (m ≤ scraped)

/-- Frontier enqueue: a no-op when the URL is already visited or queued,
otherwise append to the FIFO queue and mark queued. -/
def enqueueLink (st : CrawlState) (l : Str) : CrawlState :=
  if l ∈ st.visited ∨ l ∈ st.queued then st
  else { st with queue := st.queue ++ [l], queued := st.queued ++ [l] }

/-- Processing of one dequeued, unvisited URL: mark visited, scrape, enqueue
the discovered links, count the page and record persisted output. -/
def crawlStep (fetch : Str → FetchOutcome) (st : CrawlState) (url : Str) (rest : List Str) : CrawlState :=
  let res := scrape_page fetch url
  let st1 := { st with queue := rest, visited := st.visited ++ [url], log := st.log ++ [url] }
  let st2 := res.1.foldl enqueueLink st1
  { st2 with scraped := st2.scraped + 1, saved := st2.saved ++ res.2 }

/-- The crawl loop of ReactomeScraper.crawl, fuel-indexed for termination:
stop on an empty frontier or on the page cap, skip already-visited entries,
otherwise process the head of the queue. -/
def crawl_loop (fetch : Str → FetchOutcome) (mp : Option Nat) : Nat → CrawlState → CrawlState
  | 0, st => st
  | fuel + 1, st =>
    match st.queue with
    | [] => st
    | url :: rest =>
      if capReached mp st.scraped then st
      else if url ∈ st.visited then crawl_loop fetch mp fuel { st with queue := rest }
      else crawl_loop fetch mp fuel (crawlStep fetch st url rest)

/-- ReactomeScraper.crawl: seed the frontier with the normalized start URLs
(deduplicated against the visited and queued sets) and run the loop. -/
def crawl (fetch : Str → FetchOutcome) (mp : Option Nat) (start_urls : List Str) (fuel : Nat) : CrawlState :=
  crawl_loop fetch mp fuel (start_urls.foldl (fun s u => enqueueLink s (normalize_url u)) initState)

/-- Generic shape of an absolute URL: scheme, `://`, host, path, and an
optional fragment introduced by a hash.  Used to quantify claims over all
well-formed URLs. -/
def renderURL (scheme host path : Str) (frag : Option Str) : Str :=
  scheme ++ ':' :: '/' :: '/' :: (host ++ path ++ (match frag with | none => [] | some f => '#' :: f))

/-- A well-formed scheme component as CPython urlsplit recognises it. -/
def SchemeWF (scheme : Str) : Prop := schemeOK scheme = true

/-- A well-formed host component: free of path, query and fragment delimiters. -/
def HostWF (host : Str) : Prop := ∀ c ∈ host, c ≠ '/' ∧ c ≠ '?' ∧ c ≠ '#'

/-- A well-formed path component: empty or slash-led, free of query, fragment
and params delimiters. -/
def PathWF (path : Str) : Prop :=
  (path = [] ∨ path.head? = some '/') ∧ '#' ∉ path ∧ '?' ∉ path ∧ ';' ∉ path

/-- An anchor element with a given href. -/
def mkAnchor (h : Str) : Element := .node (r"a") [] none (some h) []

/-- Fixture: a document with a body and a paragraph but no item-page or
blog-post marker anywhere. -/
def plainDoc : Element :=
  .node (r"html") [] none none [.node (r"body") [] none none [.node (r"p") [] none none []]]

/-- Fixture: a document whose only anchor has an empty href. -/
def emptyHrefDoc : Element := .node (r"html") [] none none [.node (r"body") [] none none [mkAnchor []]]

/-- Fixture: a seed page containing ten in-scope links. -/
def seedDoc : Element :=
  .node (r"html") [] none none
    ((List.range 10).map (fun i => mkAnchor (str (r"https://reactome.org/p" ++ toString i))))

/-- Fixture network: the seed URL serves the ten-link page, every other URL
fails with a request exception. -/
def exFetch : Str → FetchOutcome := fun u =>
  if u = str (r"https://reactome.org/seed") then .success (str (r"text/html")) seedDoc else .requestError

/-- Fixture network for the Asset Store: every GET succeeds as a png. -/
def exNet : Str → Option Str := fun _ => some (str (r"image/png"))

/-- Fixture hash function standing in for the md5 hex digest. -/
def exHash : Str → Str := fun _ => str (r"0123456789abcdef")

/-- A fetch-level failure: a request exception (network, timeout, non-2xx
status) or a response whose content type is not HTML. -/
def failedFetch (o : FetchOutcome) : Prop :=
  o = FetchOutcome.requestError ∨
    ∃ ct d, o = FetchOutcome.success ct d ∧ isSubstring (str (r"text/html")) ct = false

/-- The discard set exactly as the claim words it: javascript, mailto and
pure-fragment hrefs (the code additionally discards empty hrefs). -/
def claimDiscard (href : Str) : Bool :=
  (str (r"javascript:")).isPrefixOf href || (str (r"mailto:")).isPrefixOf href
    || (str (r"#")).isPrefixOf href

/-- Frontier part of the crawl invariant: the queue has no duplicates, is
covered by the queued set, and is disjoint from the visited set. -/
def InvQ (st : CrawlState) : Prop :=
  st.queue.Nodup ∧ (∀ u ∈ st.queue, u ∈ st.queued) ∧ (∀ u ∈ st.queue, u ∉ st.visited)

/-- Full crawl invariant: the frontier invariant, plus the visited set being
exactly the fetch log, the page counter agreeing with it, and the log being
duplicate-free. -/
def CrawlInv (st : CrawlState) : Prop :=
  InvQ st ∧ st.visited = st.log ∧ st.scraped = st.log.length ∧ st.log.Nodup

/-- Fixture current URL for link-extraction scenarios. -/
def exCur : Str := str (r"https://reactome.org/docs/intro")

/-- Fixture: a document containing an item-page div. -/
def itemDoc : Element := .node (r"html") [] none none [.node (r"div") [r"item-page"] none none []]

/-- Fixture: a document with a single root-relative link. -/
def linkDoc : Element := .node (r"html") [] none none [mkAnchor (str (r"/about/news"))]

/-- takeWhile over a list all of whose elements satisfy the predicate. -/
theorem takeWhile_all {p : Char → Bool} : ∀ {xs : Str}, (∀ x ∈ xs, p x = true) → xs.takeWhile p = xs
  | [], _ => rfl
  | a :: l, h => by
    have ha : p a = true := h a (List.mem_cons_self a l)
    have ih := @takeWhile_all p l (fun x hx => h x (List.mem_cons_of_mem a hx))
    simp [List.takeWhile_cons, ha, ih]

/-- dropWhile over a list all of whose elements satisfy the predicate. -/
theorem dropWhile_all {p : Char → Bool} : ∀ {xs : Str}, (∀ x ∈ xs, p x = true) → xs.dropWhile p = []
  | [], _ => rfl
  | a :: l, h => by
    have ha : p a = true := h a (List.mem_cons_self a l)
    have ih := @dropWhile_all p l (fun x hx => h x (List.mem_cons_of_mem a hx))
    simp [List.dropWhile_cons, ha, ih]

/-- takeWhile stops exactly at a failing element appended after an
all-satisfying block. -/
theorem takeWhile_append_stop {p : Char → Bool} {c : Char} (hc : p c = false) :
    ∀ (xs ys : Str), (∀ x ∈ xs, p x = true) → (xs ++ c :: ys).takeWhile p = xs
  | [], ys, _ => by simp [List.takeWhile_cons, hc]
  | a :: l, ys, h => by
    have ha : p a = true := h a (List.mem_cons_self a l)
    have ih := takeWhile_append_stop hc l ys (fun x hx => h x (List.mem_cons_of_mem a hx))
    simp [List.takeWhile_cons, ha, ih]

/-- dropWhile distributes over an append whose right part starts with a
failing element. -/
theorem dropWhile_append_stop {p : Char → Bool} {c : Char} (hc : p c = false) :
    ∀ (xs ys : Str), (xs ++ c :: ys).dropWhile p = xs.dropWhile p ++ c :: ys
  | [], ys => by simp [List.dropWhile_cons, hc]
  | a :: l, ys => by
    cases hpa : p a <;> simp [List.dropWhile_cons, hpa, dropWhile_append_stop hc l ys]

/-- Stripping trailing slashes passes over a block ending in a non-slash. -/
theorem rstrip_append (a : Str) {c : Char} (hc : ¬ c = '/') (b : Str) :
    rstripSlash (a ++ c :: b) = a ++ c :: rstripSlash b := by
  unfold rstripSlash
  rw [show a ++ c :: b = (a ++ [c]) ++ b by simp]
  rw [List.reverse_append, List.reverse_append]
  simp only [List.reverse_cons, List.reverse_nil, List.nil_append, List.singleton_append]
  rw [dropWhile_append_stop (by simp [hc]) b.reverse a.reverse]
  simp

/-- Appending a trailing slash does not change the rstrip result. -/
theorem rstrip_trailing (xs : Str) : rstripSlash (xs ++ [ '/' ]) = rstripSlash xs := by
  unfold rstripSlash
  rw [List.reverse_append]
  simp [List.dropWhile_cons]

/-- A well-formed scheme contains no colon. -/
theorem schemeOK_no_colon {s : Str} (h : schemeOK s = true) : ∀ x ∈ s, x ≠ ':' := by
  match s with
  | [] => intro x hx; simp at hx
  | c :: rest =>
    simp only [schemeOK, Bool.and_eq_true] at h
    intro x hx
    rcases List.mem_cons.mp hx with rfl | hx
    · intro he; rw [he] at h; exact absurd h.1 (by decide)
    · have hs := (List.all_eq_true.mp h.2) x hx
      intro he; rw [he] at hs; exact absurd hs (by decide)

/-- splitScheme recovers a well-formed scheme from a rendered URL. -/
theorem splitScheme_render (scheme rest : Str) (hs : SchemeWF scheme) :
    splitScheme (scheme ++ ':' :: rest) = (lowerStr scheme, rest) := by
  unfold splitScheme
  have hall : ∀ x ∈ scheme, (fun x => decide (x ≠ ':')) x = true := by
    intro x hx; simpa using schemeOK_no_colon hs x hx
  rw [takeWhile_append_stop (by simp) scheme rest hall]
  have hlen : scheme.length < (scheme ++ ':' :: rest).length := by
    simp [List.length_append]
  have hdrop : (scheme ++ ':' :: rest).drop (scheme.length + 1) = rest := by
    rw [show scheme ++ ':' :: rest = (scheme ++ [':']) ++ rest by simp,
        show scheme.length + 1 = (scheme ++ [':']).length by simp]
    exact List.drop_left _ _
  simp [hlen, hs, hdrop, SchemeWF] at *
  simp [hs, hdrop]

/-- urlsplit on a rendered absolute URL, expressed through the successive
character splits of its tail. -/
theorem urlsplit_split (scheme : Str) (hs : SchemeWF scheme) (X : Str) :
    urlsplit (scheme ++ ':' :: '/' :: '/' :: X) =
      ⟨lowerStr scheme,
        X.takeWhile (fun c => !stopsNetloc c),
        ((X.dropWhile (fun c => !stopsNetloc c)).takeWhile (fun c => decide (¬c = '#'))).takeWhile
          (fun c => decide (¬c = '?')),
        [],
        (((X.dropWhile (fun c => !stopsNetloc c)).takeWhile (fun c => decide (¬c = '#'))).dropWhile
          (fun c => decide (¬c = '?'))).drop 1,
        ((X.dropWhile (fun c => !stopsNetloc c)).dropWhile (fun c => decide (¬c = '#'))).drop 1⟩ := by
  have h2 : str (r"//") = ['/', '/'] := rfl
  simp only [urlsplit, splitScheme_render _ _ hs, h2, List.take_succ_cons, List.take_zero,
    List.drop_succ_cons, List.drop_zero]
  simp

/-- urlsplit recovers the components of a rendered well-formed URL. -/
theorem urlsplit_render (scheme host path : Str) (frag : Option Str)
    (hs : SchemeWF scheme) (hh : HostWF host)
    (hp0 : path = [] ∨ path.head? = some '/') (hp1 : '#' ∉ path) (hp2 : '?' ∉ path) :
    urlsplit (renderURL scheme host path frag) =
      ⟨lowerStr scheme, host, path, [], [], frag.getD []⟩ := by
  have hhost : ∀ c ∈ host, (fun c => !stopsNetloc c) c = true := by
    intro c hc
    have h3 := hh c hc
    simp [stopsNetloc, h3.1, h3.2.1, h3.2.2]
  have hhash : ∀ x ∈ path, (fun c => decide (¬c = '#')) x = true := by
    intro x hx; simp; intro he; exact hp1 (he ▸ hx)
  have hquest : ∀ x ∈ path, (fun c => decide (¬c = '?')) x = true := by
    intro x hx; simp; intro he; exact hp2 (he ▸ hx)
  rcases hp0 with rfl | hpath
  · cases frag with
    | none =>
      simp only [renderURL, List.append_nil]
      rw [urlsplit_split scheme hs host]
      rw [takeWhile_all hhost, dropWhile_all hhost]
      simp
    | some f =>
      simp only [renderURL, List.append_nil]
      rw [urlsplit_split scheme hs (host ++ '#' :: f)]
      rw [takeWhile_append_stop (by decide) host f hhost,
          dropWhile_append_stop (by decide) host f, dropWhile_all hhost]
      simp [List.takeWhile_cons, List.dropWhile_cons, Option.getD]
  · obtain ⟨pt, rfl⟩ : ∃ pt, path = '/' :: pt := by
      cases path with
      | nil => simp at hpath
      | cons a t => simp at hpath; exact ⟨t, by rw [hpath]⟩
    have hhash' : ∀ x ∈ '/' :: pt, (fun c => decide (¬c = '#')) x = true := hhash
    have hquest' : ∀ x ∈ '/' :: pt, (fun c => decide (¬c = '?')) x = true := hquest
    cases frag with
    | none =>
      have hX : host ++ ('/' :: pt) ++ [] = host ++ '/' :: pt := by simp
      simp only [renderURL, List.append_nil]
      rw [urlsplit_split scheme hs (host ++ '/' :: pt)]
      rw [takeWhile_append_stop (by decide) host pt hhost,
          dropWhile_append_stop (by decide) host pt, dropWhile_all hhost]
      rw [List.nil_append, takeWhile_all hhash', dropWhile_all hhash',
          takeWhile_all hquest', dropWhile_all hquest']
      simp
    | some f =>
      simp only [renderURL]
      rw [List.append_assoc host ('/' :: pt) ('#' :: f), List.cons_append]
      rw [urlsplit_split scheme hs (host ++ '/' :: (pt ++ '#' :: f))]
      rw [takeWhile_append_stop (by decide) host (pt ++ '#' :: f) hhost,
          dropWhile_append_stop (by decide) host (pt ++ '#' :: f), dropWhile_all hhost]
      rw [List.nil_append,
          show ('/' : Char) :: (pt ++ '#' :: f) = ('/' :: pt) ++ '#' :: f by simp,
          takeWhile_append_stop (by decide) ('/' :: pt) f hhash',
          dropWhile_append_stop (by decide) ('/' :: pt) f, dropWhile_all hhash',
          takeWhile_all hquest', dropWhile_all hquest']
      simp

/-- urlparse recovers the components of a rendered well-formed URL. -/
theorem urlparse_render (scheme host path : Str) (frag : Option Str)
    (hs : SchemeWF scheme) (hh : HostWF host) (hp : PathWF path) :
    urlparse (renderURL scheme host path frag) =
      ⟨lowerStr scheme, host, path, [], [], frag.getD []⟩ := by
  unfold urlparse
  rw [urlsplit_render scheme host path frag hs hh hp.1 hp.2.1 hp.2.2.1]
  simp [hp.2.2.2]

/-- Claim C4 (counterexample): normalize_url does not lower-case the host.
On a URL with an upper-case host the output keeps the host case, so it
differs from the lower-cased form the claim requires. -/
theorem c4_counterexample :
    normalize_url (str (r"http://EXAMPLE.com/Path")) = str (r"http://EXAMPLE.com/Path")
    ∧ ¬ normalize_url (str (r"http://EXAMPLE.com/Path")) = str (r"http://example.com/Path") := by
  constructor <;> decide

/-- Claim C4 (amended): normalize_url strips the fragment and all trailing
slashes, lower-cases the scheme, and leaves the case of the host and of the
path intact; two URLs differing only by fragment or by a trailing slash
normalize identically. -/
theorem c4_amended (scheme host path : Str) (frag : Option Str)
    (hs : SchemeWF scheme) (hh : HostWF host) (hne : host ≠ []) (hp : PathWF path) :
    normalize_url (renderURL scheme host path frag)
        = lowerStr scheme ++ str (r"://") ++ host ++ rstripSlash path
    ∧ (∀ frag2, normalize_url (renderURL scheme host path frag2)
        = normalize_url (renderURL scheme host path frag))
    ∧ normalize_url (renderURL scheme host (path ++ [ '/' ]) frag)
        = normalize_url (renderURL scheme host path frag) := by
  have key : ∀ (p : Str) (fr : Option Str), PathWF p →
      normalize_url (renderURL scheme host p fr)
        = lowerStr scheme ++ str (r"://") ++ host ++ rstripSlash p := by
    intro p fr hpw
    simp only [normalize_url, urlparse_render scheme host p fr hs hh hpw]
    obtain ⟨c, hcmem, hrw⟩ : ∃ c, c ∈ host ∧ host.dropLast ++ [c] = host :=
      ⟨host.getLast hne, List.getLast_mem hne, List.dropLast_append_getLast hne⟩
    have hc : ¬ c = '/' := (hh c hcmem).1
    rw [← hrw]
    rw [show lowerStr scheme ++ str (r"://") ++ (host.dropLast ++ [c]) ++ p
        = (lowerStr scheme ++ str (r"://") ++ host.dropLast) ++ c :: p by simp]
    rw [rstrip_append _ hc]
    simp
  have hp' : PathWF (path ++ [ '/' ]) := by
    refine ⟨?_, ?_, ?_, ?_⟩
    · rcases hp.1 with rfl | h
      · right; rfl
      · cases path with
        | nil => right; rfl
        | cons a t => right; simpa using h
    · simp only [List.mem_append]
      rintro (h | h)
      · exact hp.2.1 h
      · simp at h
    · simp only [List.mem_append]
      rintro (h | h)
      · exact hp.2.2.1 h
      · simp at h
    · simp only [List.mem_append]
      rintro (h | h)
      · exact hp.2.2.2 h
      · simp at h
  refine ⟨key path frag hp, fun fr2 => by rw [key path fr2 hp, key path frag hp], ?_⟩
  rw [key _ frag hp', key path frag hp, rstrip_trailing]

/-- Witness for the amended claim C4 at a concrete upper-case URL. -/
theorem c4_witness :
    normalize_url (renderURL (str (r"HTTP")) (str (r"Example.com")) (str (r"/Docs/")) (some (str (r"sec"))))
      = lowerStr (str (r"HTTP")) ++ str (r"://") ++ str (r"Example.com") ++ rstripSlash (str (r"/Docs/")) :=
  (c4_amended (str (r"HTTP")) (str (r"Example.com")) (str (r"/Docs/")) (some (str (r"sec")))
    (by unfold SchemeWF; decide) (by unfold HostWF; decide) (by decide)
    (by unfold PathWF; decide)).1

/-- Claim C7: get_route_path keeps only the path of the URL, strips its
leading and trailing slashes, and maps an empty path to the index sentinel;
it is a pure total function of the URL. -/
theorem c7_route_of (scheme host path : Str) (frag : Option Str)
    (hs : SchemeWF scheme) (hh : HostWF host) (hp : PathWF path) :
    get_route_path (renderURL scheme host path frag)
      = (if stripSlash path = [] then str (r"index") else stripSlash path)
    ∧ (path = [] → get_route_path (renderURL scheme host path frag) = str (r"index")) := by
  have h1 : get_route_path (renderURL scheme host path frag)
      = (if stripSlash path = [] then str (r"index") else stripSlash path) := by
    unfold get_route_path
    rw [urlparse_render scheme host path frag hs hh hp]
  refine ⟨h1, fun hpe => ?_⟩
  subst hpe
  rw [h1]
  simp [stripSlash, rstripSlash]

/-- Witness for claim C7 at a concrete URL with a slash-wrapped path. -/
theorem c7_witness :
    get_route_path (renderURL (str (r"https")) (str (r"reactome.org")) (str (r"/about/news/")) none)
      = (if stripSlash (str (r"/about/news/")) = [] then str (r"index")
         else stripSlash (str (r"/about/news/"))) :=
  (c7_route_of (str (r"https")) (str (r"reactome.org")) (str (r"/about/news/")) none
    (by unfold SchemeWF; decide) (by unfold HostWF; decide) (by unfold PathWF; decide)).1

/-- Claim C10: a URL whose parsed host is empty is never rejected by the
host restriction; it is accepted exactly when the path passes the extension
and service-endpoint exclusions, and any rejection at all comes from one of
those exclusions or from a non-empty host outside the configured site. -/
theorem c10_empty_host :
    (∀ url : Str, (urlparse url).netloc = [] →
      (is_valid_url url = true ↔
        extBlocked (urlparse url).path = false ∧ pathBlocked (urlparse url).path = false))
    ∧ (∀ url : Str, is_valid_url url = false →
      extBlocked (urlparse url).path = true ∨ pathBlocked (urlparse url).path = true ∨
        ((urlparse url).netloc ≠ [] ∧ (urlparse url).netloc ∉ siteHosts)) := by
  constructor
  · intro url h
    simp only [is_valid_url]
    rw [h]
    by_cases hE : extBlocked (urlparse url).path <;>
      by_cases hP : pathBlocked (urlparse url).path <;> simp [hE, hP]
  · intro url h
    simp only [is_valid_url] at h
    split_ifs at h with h1 h2 h3
    · right; right; exact h1
    · left; exact h2
    · right; left; exact h3

/-- Witness for claim C10 at a concrete relative URL. -/
theorem c10_witness :
    is_valid_url (str (r"/about/news")) = true ↔
      extBlocked (urlparse (str (r"/about/news"))).path = false ∧
        pathBlocked (urlparse (str (r"/about/news"))).path = false :=
  c10_empty_host.1 (str (r"/about/news")) (by decide)

mutual
/-- Every element returned by find_all satisfies the filter. -/
theorem pred_of_mem_findAllE (p : Element → Bool) :
    ∀ (d e : Element), e ∈ findAllE p d → p e = true
  | .node t c i hr ch, e, h => by
    simp only [findAllE, List.mem_append] at h
    rcases h with h | h
    · split at h
      · next hp => simp at h; subst h; exact hp
      · simp at h
    · exact pred_of_mem_findAllL p ch e h
/-- Every element returned by find_all over siblings satisfies the filter. -/
theorem pred_of_mem_findAllL (p : Element → Bool) :
    ∀ (l : List Element) (e : Element), e ∈ findAllL p l → p e = true
  | [], e, h => by simp [findAllL] at h
  | x :: xs, e, h => by
    simp only [findAllL, List.mem_append] at h
    rcases h with h | h
    · exact pred_of_mem_findAllE p x e h
    · exact pred_of_mem_findAllL p xs e h
end

mutual
/-- Every element returned by find_all is an element of the document. -/
theorem elem_of_mem_findAllE (p : Element → Bool) :
    ∀ (d e : Element), e ∈ findAllE p d → e ∈ findAllE (fun _ => true) d
  | .node t c i hr ch, e, h => by
    simp only [findAllE, List.mem_append] at h
    have hd : e = Element.node t c i hr ch ∨ e ∈ findAllL p ch := by
      rcases h with h | h
      · split at h
        · simp at h; exact Or.inl h
        · simp at h
      · exact Or.inr h
    simp only [findAllE, if_pos rfl, List.mem_append]
    rcases hd with rfl | hd
    · left; exact List.mem_cons_self _ _
    · right; exact elem_of_mem_findAllL p ch e hd
/-- Sibling version of elem_of_mem_findAllE. -/
theorem elem_of_mem_findAllL (p : Element → Bool) :
    ∀ (l : List Element) (e : Element), e ∈ findAllL p l → e ∈ findAllL (fun _ => true) l
  | [], e, h => by simp [findAllL] at h
  | x :: xs, e, h => by
    simp only [findAllL, List.mem_append] at h ⊢
    rcases h with h | h
    · exact Or.inl (elem_of_mem_findAllE p x e h)
    · exact Or.inr (elem_of_mem_findAllL p xs e h)
end

mutual
/-- An element of the document satisfying the filter is returned by
find_all with that filter. -/
theorem mem_findAllE_of (p : Element → Bool) :
    ∀ (d e : Element), e ∈ findAllE (fun _ => true) d → p e = true → e ∈ findAllE p d
  | .node t c i hr ch, e, h, hp => by
    simp only [findAllE, if_pos rfl, List.mem_append] at h
    simp only [findAllE, List.mem_append]
    rcases h with h | h
    · simp at h
      subst h
      left
      rw [if_pos hp]
      exact List.mem_cons_self _ _
    · right; exact mem_findAllL_of p ch e h hp
/-- Sibling version of mem_findAllE_of. -/
theorem mem_findAllL_of (p : Element → Bool) :
    ∀ (l : List Element) (e : Element), e ∈ findAllL (fun _ => true) l → p e = true → e ∈ findAllL p l
  | [], e, h, _ => by simp [findAllL] at h
  | x :: xs, e, h, hp => by
    simp only [findAllL, List.mem_append] at h ⊢
    rcases h with h | h
    · exact Or.inl (mem_findAllE_of p x e h hp)
    · exact Or.inr (mem_findAllL_of p xs e h hp)
end

/-- Claim C2 (counterexample): on a document with a body but no page-container
marker, extract_content selects no primary region at all (and no secondary
regions), instead of falling back to a generic element or to the whole
document. -/
theorem c2_counterexample :
    extract_content plainDoc = (none, [])
    ∧ ∃ e ∈ elemsOf plainDoc, e.tag = r"body" := by
  refine ⟨rfl, Element.node (r"body") [] none none [Element.node (r"p") [] none none []], ?_, rfl⟩
  show _ ∈ elemsOf plainDoc
  have h : elemsOf plainDoc
      = [Element.node (r"html") [] none none
           [Element.node (r"body") [] none none [Element.node (r"p") [] none none []]],
         Element.node (r"body") [] none none [Element.node (r"p") [] none none []],
         Element.node (r"p") [] none none []] := rfl
  rw [h]
  exact List.mem_cons_of_mem _ (List.mem_cons_self _ _)

/-- Claim C2 (amended): the primary content region is the first div with the
item-page class marker, in document order, when one exists; when no element
of the document carries that marker there is no primary region (no fallback
to a generic element or to the whole document exists). -/
theorem c2_amended (d : Element) :
    ((extract_content d).1 = none ↔ ∀ e ∈ elemsOf d, isItemPage e = false)
    ∧ (∀ e, (extract_content d).1 = some e → e ∈ elemsOf d ∧ isItemPage e = true) := by
  have h1 : (extract_content d).1 = (findAllE isItemPage d).head? := rfl
  constructor
  · rw [h1]
    constructor
    · intro hnone e he
      by_contra hp0
      have hp : isItemPage e = true := by revert hp0; cases isItemPage e <;> simp
      have hmem : e ∈ findAllE isItemPage d := mem_findAllE_of isItemPage d e he hp
      cases hfa : findAllE isItemPage d with
      | nil => rw [hfa] at hmem; simp at hmem
      | cons x xs => rw [hfa] at hnone; simp at hnone
    · intro hall
      cases hfa : findAllE isItemPage d with
      | nil => simp
      | cons x xs =>
        exfalso
        have hx : x ∈ findAllE isItemPage d := by rw [hfa]; exact List.mem_cons_self x xs
        have hpx := pred_of_mem_findAllE isItemPage d x hx
        rw [hall x (elem_of_mem_findAllE isItemPage d x hx)] at hpx
        simp at hpx
  · intro e he
    rw [h1] at he
    have hmem : e ∈ findAllE isItemPage d := by
      cases hfa : findAllE isItemPage d with
      | nil => rw [hfa] at he; simp at he
      | cons x xs =>
        rw [hfa] at he
        simp at he
        simp [he]
    exact ⟨elem_of_mem_findAllE isItemPage d e hmem, pred_of_mem_findAllE isItemPage d e hmem⟩

/-- Witness for the amended claim C2 at a concrete marker-free document. -/
theorem c2_witness :
    (extract_content plainDoc).1 = none ↔ ∀ e ∈ elemsOf plainDoc, isItemPage e = false :=
  (c2_amended plainDoc).1

/-- Membership after one link-collection step. -/
theorem mem_linkStep (cur : Str) (acc : List Str) (h u : Str) :
    u ∈ linkStep cur acc h ↔
      u ∈ acc ∨ (hrefDiscarded h = false ∧ normalize_url (urljoin cur h) = u
        ∧ is_valid_url (normalize_url (urljoin cur h)) = true) := by
  unfold linkStep
  by_cases hd : hrefDiscarded h = true
  · simp [hd]
  · rw [Bool.not_eq_true] at hd
    by_cases hv : is_valid_url (normalize_url (urljoin cur h)) = true
    · by_cases hm : normalize_url (urljoin cur h) ∈ acc
      · simp only [hd, Bool.false_eq_true, if_false, hv, if_true, hm]
        constructor
        · exact Or.inl
        · rintro (hu | ⟨_, hnu, _⟩)
          · exact hu
          · exact hnu ▸ hm
      · simp only [hd, Bool.false_eq_true, if_false, hv, if_true, hm]
        simp [List.mem_append, eq_comm]
    · simp [hd, hv]
  
/-- Membership in the link-collection fold. -/
theorem mem_linkFold (cur : Str) :
    ∀ (hl acc : List Str) (u : Str),
      u ∈ hl.foldl (linkStep cur) acc ↔
        u ∈ acc ∨ ∃ h, h ∈ hl ∧ hrefDiscarded h = false
          ∧ normalize_url (urljoin cur h) = u ∧ is_valid_url u = true
  | [], acc, u => by simp
  | a :: as, acc, u => by
    rw [List.foldl_cons, mem_linkFold cur as (linkStep cur acc a) u, mem_linkStep cur acc a u]
    constructor
    · rintro ((hu | ⟨hd, hn, hv⟩) | ⟨g, hg, hgd, hgn, hgv⟩)
      · exact Or.inl hu
      · exact Or.inr ⟨a, List.mem_cons_self a as, hd, hn, hn ▸ hv⟩
      · exact Or.inr ⟨g, List.mem_cons_of_mem a hg, hgd, hgn, hgv⟩
    · rintro (hu | ⟨g, hg, hgd, hgn, hgv⟩)
      · exact Or.inl (Or.inl hu)
      · rcases List.mem_cons.mp hg with rfl | hg
        · exact Or.inl (Or.inr ⟨hgd, hgn, hgn ▸ hgv⟩)
        · exact Or.inr ⟨g, hg, hgd, hgn, hgv⟩

/-- One link-collection step preserves freedom from duplicates. -/
theorem nodup_linkStep (cur : Str) (acc : List Str) (h : Str) (hacc : acc.Nodup) :
    (linkStep cur acc h).Nodup := by
  unfold linkStep
  by_cases hd : hrefDiscarded h = true
  · simp [hd, hacc]
  · rw [Bool.not_eq_true] at hd
    by_cases hv : is_valid_url (normalize_url (urljoin cur h)) = true
    · by_cases hm : normalize_url (urljoin cur h) ∈ acc
      · simp [hd, hv, hm, hacc]
      · simp only [hd, Bool.false_eq_true, if_false, hv, if_true, hm]
        simp [List.nodup_append, hacc, hm]
    · simp [hd, hv, hacc]

/-- The link-collection fold preserves freedom from duplicates. -/
theorem nodup_linkFold (cur : Str) :
    ∀ (hl acc : List Str), acc.Nodup → (hl.foldl (linkStep cur) acc).Nodup
  | [], _, h => h
  | a :: as, acc, h => nodup_linkFold cur as _ (nodup_linkStep cur acc a h)

/-- Claim C8 (counterexample): an anchor with an empty href is discarded by
extract_links even though it does not start with javascript, mailto or a
fragment character, and its resolution against the current URL normalizes to
an in-scope URL — so the claimed inclusion equivalence fails for empty
hrefs. -/
theorem c8_counterexample :
    ([] : Str) ∈ anchorHrefs emptyHrefDoc
    ∧ claimDiscard [] = false
    ∧ is_valid_url (normalize_url (urljoin exCur [])) = true
    ∧ extract_links emptyHrefDoc exCur = [] := by
  refine ⟨?_, ?_, ?_, ?_⟩ <;> decide

/-- Claim C8 (amended): extract_links discards javascript, mailto,
pure-fragment and empty hrefs; every other href of any anchor in the whole
document is resolved against the current URL, normalized, and appears in the
result exactly when is_valid_url accepts it; the result has no duplicates. -/
theorem c8_amended (d : Element) (cur u : Str) :
    (u ∈ extract_links d cur ↔
      ∃ h, h ∈ anchorHrefs d ∧ hrefDiscarded h = false
        ∧ normalize_url (urljoin cur h) = u ∧ is_valid_url u = true)
    ∧ (extract_links d cur).Nodup := by
  constructor
  · unfold extract_links
    rw [mem_linkFold cur (anchorHrefs d) [] u]
    simp
  · exact nodup_linkFold cur (anchorHrefs d) [] List.nodup_nil

/-- Witness for the amended claim C8: a concrete root-relative link is
resolved, normalized and included. -/
theorem c8_witness :
    str (r"https://reactome.org/about/news") ∈ extract_links linkDoc exCur :=
  (c8_amended linkDoc exCur (str (r"https://reactome.org/about/news"))).1.mpr
    ⟨str (r"/about/news"), by decide, by decide, by decide, by decide⟩

/-- Claim C1 (code evaluation at the failing input): when the same image URL
is requested from two different page routes, exactly one network download and
one file write happen, but the two callers receive different rewritten
paths — the second points inside its own route where no file was written,
instead of the first-seen local path. -/
theorem c1_route_local_paths :
    (download_image exNet exHash (str (r"scraped_pages"))
        (str (r"https://reactome.org/uploads/pic.png")) (str (r"docs/intro")) initAsset).2.downloads
      = [str (r"https://reactome.org/uploads/pic.png")]
    ∧ (download_image exNet exHash (str (r"scraped_pages"))
        (str (r"https://reactome.org/uploads/pic.png")) (str (r"docs/other"))
        (download_image exNet exHash (str (r"scraped_pages"))
          (str (r"https://reactome.org/uploads/pic.png")) (str (r"docs/intro")) initAsset).2).2.downloads
      = [str (r"https://reactome.org/uploads/pic.png")]
    ∧ (download_image exNet exHash (str (r"scraped_pages"))
        (str (r"https://reactome.org/uploads/pic.png")) (str (r"docs/other"))
        (download_image exNet exHash (str (r"scraped_pages"))
          (str (r"https://reactome.org/uploads/pic.png")) (str (r"docs/intro")) initAsset).2).2.written
      = [str (r"scraped_pages/images/docs/intro/pic.png")]
    ∧ (download_image exNet exHash (str (r"scraped_pages"))
        (str (r"https://reactome.org/uploads/pic.png")) (str (r"docs/intro")) initAsset).1
      = some (str (r"images/docs/intro/pic.png"))
    ∧ (download_image exNet exHash (str (r"scraped_pages"))
        (str (r"https://reactome.org/uploads/pic.png")) (str (r"docs/other"))
        (download_image exNet exHash (str (r"scraped_pages"))
          (str (r"https://reactome.org/uploads/pic.png")) (str (r"docs/intro")) initAsset).2).1
      = some (str (r"images/docs/other/pic.png")) := by
  refine ⟨?_, ?_, ?_, ?_, ?_⟩ <;> decide

/-- enqueueLink never touches the visited set. -/
theorem enqueueLink_visited (st : CrawlState) (l : Str) :
    (enqueueLink st l).visited = st.visited := by
  unfold enqueueLink; split <;> rfl

/-- enqueueLink never touches the fetch log. -/
theorem enqueueLink_log (st : CrawlState) (l : Str) : (enqueueLink st l).log = st.log := by
  unfold enqueueLink; split <;> rfl

/-- enqueueLink never touches the page counter. -/
theorem enqueueLink_scraped (st : CrawlState) (l : Str) :
    (enqueueLink st l).scraped = st.scraped := by
  unfold enqueueLink; split <;> rfl

/-- enqueueLink never touches the persisted content. -/
theorem enqueueLink_saved (st : CrawlState) (l : Str) : (enqueueLink st l).saved = st.saved := by
  unfold enqueueLink; split <;> rfl

/-- Folded enqueues never touch the visited set. -/
theorem foldl_enqueue_visited : ∀ (ls : List Str) (st : CrawlState),
    (ls.foldl enqueueLink st).visited = st.visited
  | [], _ => rfl
  | a :: as, st => by
    rw [List.foldl_cons, foldl_enqueue_visited as, enqueueLink_visited]

/-- Folded enqueues never touch the fetch log. -/
theorem foldl_enqueue_log : ∀ (ls : List Str) (st : CrawlState),
    (ls.foldl enqueueLink st).log = st.log
  | [], _ => rfl
  | a :: as, st => by rw [List.foldl_cons, foldl_enqueue_log as, enqueueLink_log]

/-- Folded enqueues never touch the page counter. -/
theorem foldl_enqueue_scraped : ∀ (ls : List Str) (st : CrawlState),
    (ls.foldl enqueueLink st).scraped = st.scraped
  | [], _ => rfl
  | a :: as, st => by rw [List.foldl_cons, foldl_enqueue_scraped as, enqueueLink_scraped]

/-- Folded enqueues never touch the persisted content. -/
theorem foldl_enqueue_saved : ∀ (ls : List Str) (st : CrawlState),
    (ls.foldl enqueueLink st).saved = st.saved
  | [], _ => rfl
  | a :: as, st => by rw [List.foldl_cons, foldl_enqueue_saved as, enqueueLink_saved]

/-- Enqueueing is a no-op when the URL is already visited or queued. -/
theorem enqueue_noop (st : CrawlState) (l : Str) (h : l ∈ st.visited ∨ l ∈ st.queued) :
    enqueueLink st l = st := by
  unfold enqueueLink; rw [if_pos h]

/-- One enqueue preserves the frontier invariant. -/
theorem invQ_enqueue (st : CrawlState) (l : Str) (h : InvQ st) : InvQ (enqueueLink st l) := by
  unfold enqueueLink
  split
  · exact h
  · next hml =>
    obtain ⟨h1, h2⟩ := not_or.mp hml
    refine ⟨?_, ?_, ?_⟩
    · rw [List.nodup_append]
      refine ⟨h.1, List.nodup_singleton l, ?_⟩
      intro a ha hal
      rw [List.mem_singleton] at hal
      subst hal
      exact h2 (h.2.1 a ha)
    · intro u hu
      rcases List.mem_append.mp hu with hu | hu
      · exact List.mem_append.mpr (Or.inl (h.2.1 u hu))
      · rw [List.mem_singleton] at hu
        subst hu
        exact List.mem_append.mpr (Or.inr (by simp))
    · intro u hu
      rcases List.mem_append.mp hu with hu | hu
      · exact h.2.2 u hu
      · rw [List.mem_singleton] at hu
        subst hu
        exact h1

/-- Folded enqueues preserve the frontier invariant. -/
theorem invQ_fold : ∀ (ls : List Str) (st : CrawlState), InvQ st → InvQ (ls.foldl enqueueLink st)
  | [], _, h => h
  | a :: as, st, h => invQ_fold as _ (invQ_enqueue st a h)

/-- One enqueue preserves the full crawl invariant. -/
theorem crawlInv_enqueue (st : CrawlState) (l : Str) (h : CrawlInv st) :
    CrawlInv (enqueueLink st l) :=
  ⟨invQ_enqueue st l h.1,
   by rw [enqueueLink_visited, enqueueLink_log]; exact h.2.1,
   by rw [enqueueLink_scraped, enqueueLink_log]; exact h.2.2.1,
   by rw [enqueueLink_log]; exact h.2.2.2⟩

/-- The visited set after a crawl step. -/
theorem crawlStep_visited (fetch : Str → FetchOutcome) (st : CrawlState) (url : Str) (rest : List Str) :
    (crawlStep fetch st url rest).visited = st.visited ++ [url] := by
  simp only [crawlStep]
  rw [foldl_enqueue_visited]

/-- The fetch log after a crawl step. -/
theorem crawlStep_log (fetch : Str → FetchOutcome) (st : CrawlState) (url : Str) (rest : List Str) :
    (crawlStep fetch st url rest).log = st.log ++ [url] := by
  simp only [crawlStep]
  rw [foldl_enqueue_log]

/-- The page counter after a crawl step. -/
theorem crawlStep_scraped (fetch : Str → FetchOutcome) (st : CrawlState) (url : Str) (rest : List Str) :
    (crawlStep fetch st url rest).scraped = st.scraped + 1 := by
  simp only [crawlStep]
  rw [foldl_enqueue_scraped]

/-- The persisted content after a crawl step. -/
theorem crawlStep_saved (fetch : Str → FetchOutcome) (st : CrawlState) (url : Str) (rest : List Str) :
    (crawlStep fetch st url rest).saved = st.saved ++ (scrape_page fetch url).2 := by
  simp only [crawlStep]
  rw [foldl_enqueue_saved]

/-- A crawl step on an unvisited head of the queue preserves the crawl
invariant. -/
theorem crawlInv_step (fetch : Str → FetchOutcome) (st : CrawlState) (url : Str) (rest : List Str)
    (h : CrawlInv st) (hq : st.queue = url :: rest) : CrawlInv (crawlStep fetch st url rest) := by
  obtain ⟨⟨hnd, hsub, hdis⟩, hvl, hsc, hlnd⟩ := h
  have hurl_notvis : url ∉ st.visited := hdis url (by rw [hq]; exact List.mem_cons_self _ _)
  have hurl_notrest : url ∉ rest := by
    rw [hq] at hnd; exact (List.nodup_cons.mp hnd).1
  have hrest_nd : rest.Nodup := by rw [hq] at hnd; exact (List.nodup_cons.mp hnd).2
  have hQ1 : InvQ { st with queue := rest, visited := st.visited ++ [url], log := st.log ++ [url] } := by
    refine ⟨hrest_nd, ?_, ?_⟩
    · intro u hu
      exact hsub u (by rw [hq]; exact List.mem_cons_of_mem _ hu)
    · intro u hu hmem
      rcases List.mem_append.mp hmem with hm | hm
      · exact hdis u (by rw [hq]; exact List.mem_cons_of_mem _ hu) hm
      · rw [List.mem_singleton] at hm
        subst hm
        exact hurl_notrest hu
  refine ⟨?_, ?_, ?_, ?_⟩
  · unfold crawlStep
    exact invQ_fold _ _ hQ1
  · rw [crawlStep_visited, crawlStep_log, hvl]
  · rw [crawlStep_scraped, crawlStep_log, hsc]
    simp
  · rw [crawlStep_log, List.nodup_append]
    refine ⟨hlnd, List.nodup_singleton url, ?_⟩
    intro a ha hal
    rw [List.mem_singleton] at hal
    subst hal
    exact hurl_notvis (hvl ▸ ha)

/-- The crawl loop preserves the crawl invariant. -/
theorem crawlInv_loop (fetch : Str → FetchOutcome) (mp : Option Nat) :
    ∀ (fuel : Nat) (st : CrawlState), CrawlInv st → CrawlInv (crawl_loop fetch mp fuel st)
  | 0, st, h => h
  | fuel + 1, st, h => by
    cases hq : st.queue with
    | nil => simpa [crawl_loop, hq] using h
    | cons url rest =>
      by_cases hcap : capReached mp st.scraped = true
      · simpa [crawl_loop, hq, hcap] using h
      · have hnv : url ∉ st.visited := h.1.2.2 url (by rw [hq]; exact List.mem_cons_self _ _)
        have heq : crawl_loop fetch mp (fuel + 1) st
            = crawl_loop fetch mp fuel (crawlStep fetch st url rest) := by
          simp [crawl_loop, hq, hcap, hnv]
        rw [heq]
        exact crawlInv_loop fetch mp fuel _ (crawlInv_step fetch st url rest h hq)

/-- Seeding never touches the fetch log. -/
theorem seedfold_log : ∀ (seeds : List Str) (st : CrawlState),
    (seeds.foldl (fun s u => enqueueLink s (normalize_url u)) st).log = st.log
  | [], _ => rfl
  | a :: as, st => by rw [List.foldl_cons, seedfold_log as, enqueueLink_log]

/-- Seeding preserves the crawl invariant. -/
theorem crawlInv_seedfold : ∀ (seeds : List Str) (st : CrawlState), CrawlInv st →
    CrawlInv (seeds.foldl (fun s u => enqueueLink s (normalize_url u)) st)
  | [], _, h => h
  | a :: as, st, h => crawlInv_seedfold as _ (crawlInv_enqueue st (normalize_url a) h)

/-- The initial state satisfies the crawl invariant. -/
theorem crawlInv_init : CrawlInv initState := by
  refine ⟨⟨?_, ?_, ?_⟩, rfl, rfl, ?_⟩ <;> simp [initState]

/-- The seeded start state of any run satisfies the crawl invariant. -/
theorem crawlInv_start (seeds : List Str) :
    CrawlInv (seeds.foldl (fun s u => enqueueLink s (normalize_url u)) initState) :=
  crawlInv_seedfold seeds initState crawlInv_init

/-- Claim C3: two raw URLs with the same canonical form produce at most one
fetch per run.  The fetch log of any crawl run is duplicate-free, the
visited set is exactly the fetch log, enqueueing an already-visited or
already-queued URL is a no-op, and a seed list carrying a second URL with
the same canonical form behaves exactly like one without it. -/
theorem c3_frontier_dedup :
    (∀ (fetch : Str → FetchOutcome) (mp : Option Nat) (seeds : List Str) (fuel : Nat),
      (crawl fetch mp seeds fuel).log.Nodup)
    ∧ (∀ (fetch : Str → FetchOutcome) (mp : Option Nat) (seeds : List Str) (fuel : Nat),
      (crawl fetch mp seeds fuel).visited = (crawl fetch mp seeds fuel).log)
    ∧ (∀ (st : CrawlState) (l : Str), l ∈ st.visited ∨ l ∈ st.queued → enqueueLink st l = st)
    ∧ (∀ (fetch : Str → FetchOutcome) (mp : Option Nat) (u1 u2 : Str) (seeds : List Str)
        (fuel : Nat), normalize_url u1 = normalize_url u2 →
        crawl fetch mp (u1 :: u2 :: seeds) fuel = crawl fetch mp (u1 :: seeds) fuel) := by
  refine ⟨?_, ?_, ?_, ?_⟩
  · intro fetch mp seeds fuel
    exact (crawlInv_loop fetch mp fuel _ (crawlInv_start seeds)).2.2.2
  · intro fetch mp seeds fuel
    exact (crawlInv_loop fetch mp fuel _ (crawlInv_start seeds)).2.1
  · exact enqueue_noop
  · intro fetch mp u1 u2 seeds fuel h
    unfold crawl
    have hseed : (u1 :: u2 :: seeds).foldl (fun s u => enqueueLink s (normalize_url u)) initState
        = (u1 :: seeds).foldl (fun s u => enqueueLink s (normalize_url u)) initState := by
      simp only [List.foldl_cons]
      have h2 : enqueueLink (enqueueLink initState (normalize_url u1)) (normalize_url u2)
          = enqueueLink initState (normalize_url u1) := by
        rw [← h]
        have h1 : enqueueLink initState (normalize_url u1)
            = { initState with queue := [normalize_url u1], queued := [normalize_url u1] } := by
          simp [enqueueLink, initState]
        rw [h1]
        exact enqueue_noop _ _ (Or.inr (by simp))
      rw [h2]
    rw [hseed]

/-- Witness for claim C3: a fragment-bearing and a slash-bearing variant of
the same URL seed a run identical to seeding the first alone. -/
theorem c3_witness :
    crawl exFetch none [str (r"https://reactome.org/a#x"), str (r"https://reactome.org/a/")] 5
      = crawl exFetch none [str (r"https://reactome.org/a#x")] 5 :=
  c3_frontier_dedup.2.2.2 exFetch none (str (r"https://reactome.org/a#x"))
    (str (r"https://reactome.org/a/")) [] 5 (by decide)

/-- A failed or non-HTML fetch yields no links and no persisted content. -/
theorem scrape_page_fail (fetch : Str → FetchOutcome) (u : Str) (h : failedFetch (fetch u)) :
    scrape_page fetch u = ([], []) := by
  unfold scrape_page
  rcases h with h | ⟨ct, d, h, hct⟩ <;> rw [h]
  simp [hct]

/-- Every record persisted by scrape_page carries the URL it was fetched
from. -/
theorem scrape_page_saved_url (fetch : Str → FetchOutcome) (u : Str) :
    ∀ s ∈ (scrape_page fetch u).2, s.url = u := by
  unfold scrape_page
  cases fetch u with
  | requestError => intro s hs; simp at hs
  | success ct d =>
    by_cases hct : isSubstring (str (r"text/html")) ct = true
    · simp only [hct, Bool.not_true, Bool.false_eq_true, if_false]
      intro s hs
      split at hs
      · rw [List.mem_singleton] at hs
        subst hs
        rfl
      · simp at hs
    · rw [Bool.not_eq_true] at hct
      simp [hct]

/-- Any per-record property of scrape_page output is preserved along the
crawl loop. -/
theorem saved_loop (fetch : Str → FetchOutcome) (mp : Option Nat) (P : SavedPage → Prop)
    (hP : ∀ url, ∀ s ∈ (scrape_page fetch url).2, P s) :
    ∀ (fuel : Nat) (st : CrawlState), (∀ s ∈ st.saved, P s) →
      ∀ s ∈ (crawl_loop fetch mp fuel st).saved, P s
  | 0, st, h => h
  | fuel + 1, st, h => by
    cases hq : st.queue with
    | nil => simpa [crawl_loop, hq] using h
    | cons url rest =>
      by_cases hcap : capReached mp st.scraped = true
      · simpa [crawl_loop, hq, hcap] using h
      · by_cases hv : url ∈ st.visited
        · have heq : crawl_loop fetch mp (fuel + 1) st
              = crawl_loop fetch mp fuel { st with queue := rest } := by
            simp [crawl_loop, hq, hcap, hv]
          rw [heq]
          exact saved_loop fetch mp P hP fuel _ h
        · have heq : crawl_loop fetch mp (fuel + 1) st
              = crawl_loop fetch mp fuel (crawlStep fetch st url rest) := by
            simp [crawl_loop, hq, hcap, hv]
          rw [heq]
          refine saved_loop fetch mp P hP fuel _ ?_
          intro s hs
          rw [crawlStep_saved] at hs
          rcases List.mem_append.mp hs with hs | hs
          · exact h s hs
          · exact hP url s hs

/-- Seeding never touches the persisted content. -/
theorem seedfold_saved : ∀ (seeds : List Str) (st : CrawlState),
    (seeds.foldl (fun s u => enqueueLink s (normalize_url u)) st).saved = st.saved
  | [], _ => rfl
  | a :: as, st => by rw [List.foldl_cons, seedfold_saved as, enqueueLink_saved]

/-- A duplicate-free list contains every element at most once. -/
theorem nodup_count_le_one : ∀ (l : List Str), l.Nodup → ∀ a : Str, l.count a ≤ 1
  | [], _, a => by simp
  | x :: xs, h, a => by
    rcases List.nodup_cons.mp h with ⟨hx, hxs⟩
    rw [List.count_cons]
    by_cases hax : a = x
    · subst hax
      have h0 : xs.count a = 0 := List.count_eq_zero.mpr hx
      simp [h0]
    · have hle := nodup_count_le_one xs hxs a
      have hxa : ¬ x = a := fun hh => hax hh.symm
      simp [hxa, hle]

/-- Claim C5: every fetch-level failure is non-fatal.  A failed URL yields no
links and no content, nothing is ever persisted for it, a dequeued URL is
always recorded in the visited set, a URL is fetched at most once per run,
and processing a failing frontier head just marks it visited, counts it, and
continues with the rest of the queue. -/
theorem c5_fetch_failures_nonfatal :
    ∀ (fetch : Str → FetchOutcome) (mp : Option Nat) (seeds : List Str) (fuel : Nat) (u : Str),
      failedFetch (fetch u) →
      scrape_page fetch u = ([], [])
      ∧ (∀ s ∈ (crawl fetch mp seeds fuel).saved, ¬ s.url = u)
      ∧ (u ∈ (crawl fetch mp seeds fuel).log → u ∈ (crawl fetch mp seeds fuel).visited)
      ∧ (crawl fetch mp seeds fuel).log.count u ≤ 1
      ∧ (∀ (st : CrawlState) (rest : List Str), st.queue = u :: rest →
          capReached mp st.scraped = false → u ∉ st.visited →
          crawl_loop fetch mp (fuel + 1) st
            = crawl_loop fetch mp fuel
                { st with
                    queue := rest
                    visited := st.visited ++ [u]
                    log := st.log ++ [u]
                    scraped := st.scraped + 1 }) := by
  intro fetch mp seeds fuel u hfail
  unfold crawl
  have hInv := crawlInv_loop fetch mp fuel _ (crawlInv_start seeds)
  refine ⟨scrape_page_fail fetch u hfail, ?_, ?_, ?_, ?_⟩
  · refine saved_loop fetch mp (fun s => ¬ s.url = u) ?_ fuel _ ?_
    · intro url s hs
      by_cases hu : url = u
      · subst hu
        rw [scrape_page_fail fetch url hfail] at hs
        simp at hs
      · rw [scrape_page_saved_url fetch url s hs]
        exact hu
    · intro s hs
      rw [seedfold_saved] at hs
      simp [initState] at hs
  · intro hmem
    rw [hInv.2.1]
    exact hmem
  · exact nodup_count_le_one _ hInv.2.2.2 u
  · intro st rest hq hcap hnv
    have heq : crawl_loop fetch mp (fuel + 1) st
        = crawl_loop fetch mp fuel (crawlStep fetch st u rest) := by
      simp [crawl_loop, hq, hcap, hnv]
    have hstep : crawlStep fetch st u rest
        = { st with
              queue := rest
              visited := st.visited ++ [u]
              log := st.log ++ [u]
              scraped := st.scraped + 1 } := by
      simp [crawlStep, scrape_page_fail fetch u hfail]
    rw [heq, hstep]

/-- Witness for claim C5: a request-error URL in the fixture network. -/
theorem c5_witness :
    scrape_page exFetch (str (r"https://reactome.org/nope")) = ([], [])
    ∧ (∀ s ∈ (crawl exFetch none [str (r"https://reactome.org/seed")] 20).saved,
        ¬ s.url = str (r"https://reactome.org/nope"))
    ∧ (str (r"https://reactome.org/nope")
          ∈ (crawl exFetch none [str (r"https://reactome.org/seed")] 20).log →
        str (r"https://reactome.org/nope")
          ∈ (crawl exFetch none [str (r"https://reactome.org/seed")] 20).visited)
    ∧ (crawl exFetch none [str (r"https://reactome.org/seed")] 20).log.count
        (str (r"https://reactome.org/nope")) ≤ 1
    ∧ (∀ (st : CrawlState) (rest : List Str), st.queue = str (r"https://reactome.org/nope") :: rest →
        capReached none st.scraped = false → str (r"https://reactome.org/nope") ∉ st.visited →
        crawl_loop exFetch none (20 + 1) st
          = crawl_loop exFetch none 20
              { st with
                queue := rest
                visited := st.visited ++ [str (r"https://reactome.org/nope")]
                log := st.log ++ [str (r"https://reactome.org/nope")]
                scraped := st.scraped + 1 }) :=
  c5_fetch_failures_nonfatal exFetch none [str (r"https://reactome.org/seed")] 20
    (str (r"https://reactome.org/nope")) (Or.inl rfl)

/-- The fetch log only grows along the crawl loop. -/
theorem crawl_loop_log_mono (fetch : Str → FetchOutcome) (mp : Option Nat) :
    ∀ (fuel : Nat) (st : CrawlState), st.log.length ≤ (crawl_loop fetch mp fuel st).log.length
  | 0, _ => le_refl _
  | fuel + 1, st => by
    cases hq : st.queue with
    | nil => simp [crawl_loop, hq]
    | cons url rest =>
      by_cases hcap : capReached mp st.scraped = true
      · simp [crawl_loop, hq, hcap]
      · by_cases hv : url ∈ st.visited
        · have heq : crawl_loop fetch mp (fuel + 1) st
              = crawl_loop fetch mp fuel { st with queue := rest } := by
            simp [crawl_loop, hq, hcap, hv]
          rw [heq]
          exact crawl_loop_log_mono fetch mp fuel { st with queue := rest }
        · have heq : crawl_loop fetch mp (fuel + 1) st
              = crawl_loop fetch mp fuel (crawlStep fetch st url rest) := by
            simp [crawl_loop, hq, hcap, hv]
          rw [heq]
          have h2 := crawl_loop_log_mono fetch mp fuel (crawlStep fetch st url rest)
          rw [crawlStep_log] at h2
          simp at h2
          omega

/-- A capped crawl loop is the truncation of the uncapped loop: its fetch
count is the minimum of the cap and the uncapped fetch count. -/
theorem capped_loop_len (fetch : Str → FetchOutcome) (N : Nat) (hN : 1 ≤ N) :
    ∀ (fuel : Nat) (st : CrawlState), CrawlInv st → st.scraped ≤ N →
      (crawl_loop fetch (some N) fuel st).log.length
        = min N (crawl_loop fetch none fuel st).log.length
  | 0, st, hInv, hle => by
    have hlen : st.log.length ≤ N := hInv.2.2.1 ▸ hle
    exact (Nat.min_eq_right hlen).symm
  | fuel + 1, st, hInv, hle => by
    cases hq : st.queue with
    | nil =>
      have hlen : st.log.length ≤ N := hInv.2.2.1 ▸ hle
      simp [crawl_loop, hq]
      exact hlen
    | cons url rest =>
      have hnv : url ∉ st.visited := hInv.1.2.2 url (by rw [hq]; exact List.mem_cons_self _ _)
      have hNne : ¬ N = 0 := by omega
      by_cases hcap : N ≤ st.scraped
      · have hsc : st.scraped = N := le_antisymm hle hcap
        have hcapb : capReached (some N) st.scraped = true := by
          simp [capReached, hNne, hcap]
        have hlhs : crawl_loop fetch (some N) (fuel + 1) st = st := by
          simp [crawl_loop, hq, hcapb]
        have hstep : crawl_loop fetch none (fuel + 1) st
            = crawl_loop fetch none fuel (crawlStep fetch st url rest) := by
          simp [crawl_loop, hq, capReached, hnv]
        rw [hlhs, hstep]
        have hmono := crawl_loop_log_mono fetch none fuel (crawlStep fetch st url rest)
        rw [crawlStep_log] at hmono
        have hlen : st.log.length = N := by rw [← hInv.2.2.1]; exact hsc
        rw [List.length_append] at hmono
        rw [hlen]
        rw [Nat.min_eq_left (by omega)]
      · have hcapb : capReached (some N) st.scraped = false := by
          simp [capReached, hNne, hcap]
        have h1 : crawl_loop fetch (some N) (fuel + 1) st
            = crawl_loop fetch (some N) fuel (crawlStep fetch st url rest) := by
          simp [crawl_loop, hq, hcapb, hnv]
        have h2 : crawl_loop fetch none (fuel + 1) st
            = crawl_loop fetch none fuel (crawlStep fetch st url rest) := by
          simp [crawl_loop, hq, capReached, hnv]
        rw [h1, h2]
        refine capped_loop_len fetch N hN fuel _ (crawlInv_step fetch st url rest hInv hq) ?_
        rw [crawlStep_scraped]
        omega

/-- Claim C6: with a positive page cap, a crawl run dequeues exactly the
minimum of the cap and the number of dequeues of the same run without a cap,
and every entry left in the queue when it halts is unvisited. -/
theorem c6_page_cap :
    ∀ (fetch : Str → FetchOutcome) (seeds : List Str) (fuel N : Nat), 1 ≤ N →
      (crawl fetch (some N) seeds fuel).log.length
        = min N ((crawl fetch none seeds fuel).log.length)
      ∧ ∀ u ∈ (crawl fetch (some N) seeds fuel).queue,
          u ∉ (crawl fetch (some N) seeds fuel).visited := by
  intro fetch seeds fuel N hN
  unfold crawl
  have hInv0 := crawlInv_start seeds
  constructor
  · refine capped_loop_len fetch N hN fuel _ hInv0 ?_
    rw [hInv0.2.2.1, seedfold_log]
    simp [initState]
  · exact fun u hu => (crawlInv_loop fetch (some N) fuel _ hInv0).1.2.2 u hu

/-- Witness for claim C6: the ten-link fixture with cap three stops after
exactly three dequeues while the uncapped run dequeues eleven pages. -/
theorem c6_witness :
    (crawl exFetch (some 3) [str (r"https://reactome.org/seed")] 20).log.length
      = min 3 ((crawl exFetch none [str (r"https://reactome.org/seed")] 20).log.length)
    ∧ (crawl exFetch none [str (r"https://reactome.org/seed")] 20).log.length = 11 :=
  ⟨(c6_page_cap exFetch [str (r"https://reactome.org/seed")] 20 3 (by decide)).1, by decide⟩

/-- A zero page cap behaves exactly like no cap in the crawl loop. -/
theorem crawl_loop_zero_cap (fetch : Str → FetchOutcome) :
    ∀ (fuel : Nat) (st : CrawlState), crawl_loop fetch (some 0) fuel st = crawl_loop fetch none fuel st
  | 0, _ => rfl
  | fuel + 1, st => by
    cases hq : st.queue with
    | nil => simp [crawl_loop, hq]
    | cons url rest =>
      have hcap : capReached (some 0) st.scraped = false := rfl
      have hcap2 : capReached none st.scraped = false := rfl
      by_cases hv : url ∈ st.visited
      · simp [crawl_loop, hq, hcap, hcap2, hv, crawl_loop_zero_cap fetch fuel]
      · simp [crawl_loop, hq, hcap, hcap2, hv, crawl_loop_zero_cap fetch fuel]

/-- Claim C9: a configured page cap of zero is treated as no cap at all: the
whole crawl run with cap zero equals the run without a cap, so it halts only
when the frontier is exhausted. -/
theorem c9_zero_cap :
    ∀ (fetch : Str → FetchOutcome) (seeds : List Str) (fuel : Nat),
      crawl fetch (some 0) seeds fuel = crawl fetch none seeds fuel := by
  intro fetch seeds fuel
  unfold crawl
  exact crawl_loop_zero_cap fetch fuel _
